import Mathlib

/-!
Shallow embedding of the streaming agentic orchestration core of the
jarvis-ai repository: the Model Gateway (`src/core/AIGateway.js`), the
Task Orchestrator (`TaskPlanner`, `src/unnamed/part_000`) and the
Capability Registry (`src/core/PluginManager.js`).

External collaborators (the Groq network client, `JSON.parse`,
`JSON.stringify`) are modelled as oracle parameters: the network stream
of one request is a list of wire chunks plus an optional raised error,
and argument parsing / serialization are explicit function parameters.
All orchestration logic is translated from the JavaScript source.
-/

namespace Jarvis

/-- `config.ai.fastModel` in `jarvis.config.js`: the designated fallback model. -/
def Config.fastModel : String := "llama-3.1-8b-instant"

/-- `config.ai.defaultModel` in `jarvis.config.js` (value when `DEFAULT_MODEL` is unset). -/
def Config.defaultModel : String := "llama-3.3-70b-versatile"

/-- `config.routing` in `jarvis.config.js`: task type to model id. -/
def Config.routing : List (String × String) :=
  [("general", "llama-3.3-70b-versatile"),
   ("reasoning", "deepseek-r1-distill-llama-70b"),
   ("coding", "llama-3.3-70b-versatile"),
   ("vision", "llama-3.2-90b-vision-preview"),
   ("fast", "llama-3.1-8b-instant")]

/-- `AIGateway.selectModel`: `config.routing[taskType] || config.ai.defaultModel`,
with the JS default parameter `taskType = 'general'` for an absent task type. -/
def selectModel (taskType : Option String) : String :=
  ((Config.routing.lookup (taskType.getD "general")).getD Config.defaultModel)

/-- One tool-call delta inside a wire chunk's `delta.tool_calls` array
(`tc.index`, `tc.id`, `tc.function?.name`, `tc.function?.arguments`). -/
structure WireToolCallDelta where
  index : Option Nat
  id : Option String
  fname : Option String
  farguments : Option String
  deriving Repr, DecidableEq

/-- `chunk.choices[0].delta`: optional content text and optional tool-call delta array. -/
structure WireDelta where
  content : Option String
  tool_calls : Option (List WireToolCallDelta)
  deriving Repr, DecidableEq

/-- One chunk of the underlying Groq stream: `choices[0]?.delta` and
`choices[0]?.finish_reason`. -/
structure WireChunk where
  delta : Option WireDelta
  finish_reason : Option String
  deriving Repr, DecidableEq

/-- The result of one network call `client.chat.completions.create` for a fixed
request and model: the wire chunks the stream yields before it either ends
normally (`err = none`) or raises (`err = some e`, after the listed chunks). -/
structure TransportResult where
  chunks : List WireChunk
  err : Option String
  deriving Repr, DecidableEq

/-- The StreamChunk variants of the event protocol.  `content`, `tool_call` and
`done` are produced by the Gateway; `status`, `tool_start`, `tool_result`,
`tool_error`, `warning` and the model-less `done` by the TaskPlanner.
`α` is the type of parsed tool arguments (the value `JSON.parse` yields). -/
inductive Chunk (α : Type) where
  | content (content : String) (model : String)
  | tool_call (tool : String) (arguments : α) (id : Option String) (model : String)
  | done (model : Option String)
  | status (content : String)
  | tool_start (tool : String) (content : String)
  | tool_result (tool : String) (content : String)
  | tool_error (tool : String) (content : String)
  | warning (content : String)
  deriving Repr, DecidableEq

/-- A per-index tool-call accumulator in `AIGateway.stream`:
`{ id: tc.id, name: '', arguments: '' }`. -/
structure ToolAcc where
  id : Option String
  name : String
  arguments : String
  deriving Repr, DecidableEq

/-- The sparse JS array `toolCalls`: position `i` is `none` when `toolCalls[i]`
is a hole (was never assigned). -/
abbrev AccState := List (Option ToolAcc)

/-- Extends the array so that index `i` exists, filling new slots with holes,
as JS assignment `toolCalls[i] = v` does for `i ≥ length`. -/
def ensureLen (l : AccState) (i : Nat) : AccState :=
  if i < l.length then l else l ++ List.replicate (i + 1 - l.length) none

/-- One iteration of `for (const tc of delta.tool_calls)`: skip when `tc.index`
is `undefined`; otherwise initialize the accumulator at that index if it is a
hole, overwrite `name` on a truthy name fragment, and append a truthy
arguments fragment. -/
def applyDelta (st : AccState) (tc : WireToolCallDelta) : AccState :=
  match tc.index with
  | none => st
  | some i =>
    let l := ensureLen st i
    let acc0 : ToolAcc :=
      match l.get? i with
      | some (some a) => a
      | _ => { id := tc.id, name := "", arguments := "" }
    let acc1 : ToolAcc :=
      match tc.fname with
      | some s => if s = "" then acc0 else { acc0 with name := s }
      | none => acc0
    let acc2 : ToolAcc :=
      match tc.farguments with
      | some s => if s = "" then acc1 else { acc1 with arguments := acc1.arguments ++ s }
      | none => acc1
    l.set i (some acc2)

/-- `for (const tc of toolCalls)` after `finish_reason === 'tool_calls'`:
iterating a hole raises a TypeError (`tc.name` on `undefined`); an accumulator
with a truthy name has its accumulated argument text (or `'{}'` when empty)
parsed and is emitted as a `tool_call` chunk; parse failure raises. -/
def emitToolCalls (parse : String → Except String α) (model : String) :
    AccState → Except String (List (Chunk α))
  | [] => .ok []
  | none :: _ => .error "TypeError: Cannot read properties of undefined"
  | some a :: rest =>
    if a.name = "" then emitToolCalls parse model rest
    else
      match parse (if a.arguments = "" then "\x7b\x7d" else a.arguments) with
      | .error e => .error e
      | .ok v => do
        let tail ← emitToolCalls parse model rest
        return Chunk.tool_call a.name v a.id model :: tail

/-- `if (delta?.content) yield { type: 'content', ... }`: the `content` chunk
one wire chunk contributes (none when the content delta is absent or falsy). -/
def contentOutOf (model : String) (c : WireChunk) : List (Chunk α) :=
  match c.delta with
  | some d =>
    match d.content with
    | some s => if s = "" then [] else [Chunk.content s model]
    | none => []
  | none => []

/-- `if (delta?.tool_calls) for (const tc of delta.tool_calls) ...`: the
accumulator array after folding one wire chunk's tool-call deltas. -/
def accAfter (st : AccState) (c : WireChunk) : AccState :=
  match c.delta with
  | some d =>
    match d.tool_calls with
    | some ds => ds.foldl applyDelta st
    | none => st
  | none => st

/-- The body of `for await (const chunk of stream)` for one wire chunk:
emit a `content` chunk on a truthy content delta, fold the tool-call deltas
into the accumulator array, and on `finish_reason === 'tool_calls'` emit the
finalized `tool_call` chunks (or raise).  Returns the chunks yielded, the new
accumulator state, and the raised error if any. -/
def processChunk (parse : String → Except String α) (model : String)
    (st : AccState) (c : WireChunk) :
    List (Chunk α) × AccState × Option String :=
  let contentOut : List (Chunk α) := contentOutOf model c
  let st1 : AccState := accAfter st c
  if c.finish_reason = some "tool_calls" then
    match emitToolCalls parse model st1 with
    | .ok out2 => (contentOut ++ out2, st1, none)
    | .error e => (contentOut, st1, some e)
  else (contentOut, st1, none)

/-- Processes the wire chunks in order, stopping at the first raised error;
returns the chunks yielded so far and the error, if any. -/
def processChunks (parse : String → Except String α) (model : String)
    (st : AccState) : List WireChunk → List (Chunk α) × Option String
  | [] => ([], none)
  | c :: cs =>
    let p := processChunk parse model st c
    match p.2.2 with
    | some e => (p.1, some e)
    | none =>
      let q := processChunks parse model p.2.1 cs
      (p.1 ++ q.1, q.2)

/-- One attempt of the `try` block of `AIGateway.stream` against one model:
process the transport's chunks; a processing error or a transport error is the
raised error; on clean completion yield the final `done` chunk. -/
def streamAttempt (parse : String → Except String α) (model : String)
    (t : TransportResult) : List (Chunk α) × Option String :=
  let p := processChunks parse model [] t.chunks
  match p.2 with
  | some e => (p.1, some e)
  | none =>
    match t.err with
    | some e => (p.1, some e)
    | none => (p.1 ++ [Chunk.done (some model)], none)

/-- The observable outcome of `AIGateway.stream`: chunks yielded in order, the
error that escaped (if any), and the models attempted in order (a ghost trace
recording each `client.chat.completions.create` call). -/
structure StreamResult (α : Type) where
  out : List (Chunk α)
  err : Option String
  attempts : List String
  deriving Repr, DecidableEq

/-- `AIGateway.stream` running with a resolved model name: on a raised error,
if the model is not `config.ai.fastModel` the whole request is retried by the
recursive `yield* this.stream(request, config.ai.fastModel)`; otherwise the
error propagates.  `attempt` is the network oracle for this fixed request. -/
def streamFrom (parse : String → Except String α)
    (attempt : String → TransportResult) (model : String) : StreamResult α :=
  let r := streamAttempt parse model (attempt model)
  match r.2 with
  | none => { out := r.1, err := none, attempts := [model] }
  | some e =>
    if _hm : model = Config.fastModel then
      { out := r.1, err := some e, attempts := [model] }
    else
      let rec' := streamFrom parse attempt Config.fastModel
      { out := r.1 ++ rec'.out, err := rec'.err, attempts := model :: rec'.attempts }
termination_by (if model = Config.fastModel then 0 else 1)
decreasing_by simp_all

/-- `AIGateway.stream(request, modelName)`: the model is
`modelName || this.selectModel(request.taskType)`. -/
def AIGateway.stream (parse : String → Except String α)
    (attempt : String → TransportResult) (taskType : Option String)
    (modelName : Option String) : StreamResult α :=
  streamFrom parse attempt (modelName.getD (selectModel taskType))

/-- The value `AIGateway.complete` resolves to: accumulated content and the
collected `tool_call` chunks. -/
structure CompleteResult (α : Type) where
  content : String
  toolCalls : List (Chunk α)
  deriving Repr, DecidableEq

/-- The loop body of `AIGateway.complete`: `result += chunk.content` on a
`content` chunk, `toolCalls.push(chunk)` on a `tool_call` chunk. -/
def completeStep (acc : String × List (Chunk α)) (c : Chunk α) :
    String × List (Chunk α) :=
  match c with
  | Chunk.content s _ => (acc.1 ++ s, acc.2)
  | Chunk.tool_call _ _ _ _ => (acc.1, acc.2 ++ [c])
  | _ => acc

/-- `AIGateway.complete(request, modelName)`: drains `this.stream`; an error
raised by the stream rejects the whole call, otherwise the folded content and
tool calls are returned. -/
def AIGateway.complete (parse : String → Except String α)
    (attempt : String → TransportResult) (taskType : Option String)
    (modelName : Option String) : Except String (CompleteResult α) :=
  let r := AIGateway.stream parse attempt taskType modelName
  match r.err with
  | some e => .error e
  | none =>
    let p := r.out.foldl completeStep ("", [])
    .ok { content := p.1, toolCalls := p.2 }

/-- One entry of the `tool_calls` array of an assistant message built by
`TaskPlanner.execute`: `{ id: tc.id, type: 'function', function: { name,
arguments: JSON.stringify(tc.arguments) } }` (the constant `'function'` tag
is omitted). -/
structure ToolCallRecord where
  id : Option String
  name : String
  arguments : String
  deriving Repr, DecidableEq

/-- A conversation message: role, content, the optional `tool_calls` array of
an assistant message and the optional `tool_call_id` of a tool message. -/
structure Message where
  role : String
  content : String
  tool_calls : Option (List ToolCallRecord) := none
  tool_call_id : Option String := none
  deriving Repr, DecidableEq

/-- A collected `tool_call` chunk as `TaskPlanner.execute` uses it:
`tc.tool`, `tc.arguments`, `tc.id`. -/
structure TC (α : Type) where
  tool : String
  arguments : α
  id : Option String
  deriving Repr, DecidableEq

/-- A tool's result value: either a JS string, or any other value carried with
its `JSON.stringify(v)` and `JSON.stringify(v, null, 2)` renderings. -/
inductive ToolResult where
  | str (s : String)
  | other (compact : String) (pretty : String)
  deriving Repr, DecidableEq

/-- JS `s.substring(0, n)`. -/
def jsSubstring (s : String) (n : Nat) : String := String.mk (s.data.take n)

/-- `TaskPlanner.formatResult`: strings are ellipsis-truncated at 200
characters; other values are pretty-printed first and truncated the same way. -/
def formatResult : ToolResult → String
  | .str s => if s.length > 200 then jsSubstring s 200 ++ "..." else s
  | .other _ p => if p.length > 200 then jsSubstring p 200 ++ "..." else p

/-- `typeof result === 'string' ? result : JSON.stringify(result)` — the full
serialization pushed into the conversation. -/
def serializeResult : ToolResult → String
  | .str s => s
  | .other c _ => c

/-- A capability registry: tool name to invocation function.  `Tools.set`
overwrites, so lookup of the assoc list built front-first models the map. -/
abbrev Registry (α : Type) := List (String × (α → Except String ToolResult))

/-- `PluginManager.execute`: throw `Unknown tool: name` when no tool is
registered under the name; otherwise invoke it, propagating its own failure. -/
def PluginManager.execute (reg : Registry α) (toolName : String) (args : α) :
    Except String ToolResult :=
  match reg.lookup toolName with
  | none => .error ("Unknown tool: " ++ toolName)
  | some f => f args

/-- `TaskPlanner.maxIterations` (set in the constructor). -/
def TaskPlanner.maxIterations : Nat := 10

/-- Chunks the planner forwards to its caller during one Gateway turn: exactly
the `content` chunks, in order. -/
def forwardedChunks (l : List (Chunk α)) : List (Chunk α) :=
  l.filter fun c => match c with | Chunk.content _ _ => true | _ => false

/-- `responseText`: concatenation of the `content` fields of the turn's
`content` chunks, in order. -/
def responseTextOf (l : List (Chunk α)) : String :=
  l.foldl (fun acc c => match c with | Chunk.content s _ => acc ++ s | _ => acc) ""

/-- `toolCalls`: the `tool_call` chunks collected during one turn, in order. -/
def toolCallsOf (l : List (Chunk α)) : List (TC α) :=
  l.filterMap fun c =>
    match c with
    | Chunk.tool_call t a i _ => some { tool := t, arguments := a, id := i }
    | _ => none

/-- The assistant message pushed when the turn requested tools, carrying the
accumulated response text and the stringified tool-call requests.
`stringify` models `JSON.stringify` on parsed arguments. -/
def assistantMessage (stringify : α → String) (resp : String) (tcs : List (TC α)) :
    Message :=
  { role := "assistant", content := resp,
    tool_calls := some (tcs.map fun tc =>
      { id := tc.id, name := tc.tool, arguments := stringify tc.arguments }) }

/-- The `tool_start` chunk yielded before invoking `tc.tool`. -/
def toolStartChunk (tc : TC α) : Chunk α :=
  Chunk.tool_start tc.tool ("\n> Running `" ++ tc.tool ++ "`...\n")

/-- One step of the tool loop in `TaskPlanner.execute`: yield `tool_start`,
invoke the registry; on success yield a `tool_result` chunk with the truncated
rendering and push a tool message with the full serialization; on failure
yield a `tool_error` chunk and push a tool message with the error text. -/
def runOneTool (pm : String → α → Except String ToolResult) (tc : TC α) :
    List (Chunk α) × Message :=
  match pm tc.tool tc.arguments with
  | .ok r =>
    ([toolStartChunk tc,
      Chunk.tool_result tc.tool ("> Result: " ++ formatResult r ++ "\n")],
     { role := "tool", tool_call_id := tc.id, content := serializeResult r })
  | .error e =>
    ([toolStartChunk tc,
      Chunk.tool_error tc.tool ("> Error: " ++ e ++ "\n")],
     { role := "tool", tool_call_id := tc.id, content := "Error: " ++ e })

/-- Content of the `warning` chunk emitted when the iteration ceiling is hit. -/
def warningText : String :=
  "\n⚠️ *Task reached maximum iterations. Please refine your request.*\n"

/-- Content of the `status` chunk announcing tool execution. -/
def executingStatusText : String := "\n\n🔧 *Executing tools...*\n"

/-- The observable outcome of one `TaskPlanner.execute` run: the chunks
yielded in order, the final private message list, and ghost counters for the
number of `gateway.stream` calls issued and tools invoked. -/
structure ExecResult (α : Type) where
  out : List (Chunk α)
  messages : List Message
  gwCalls : Nat
  toolInvocations : Nat
  deriving Repr, DecidableEq

/-- The `while (iterations < this.maxIterations)` loop of
`TaskPlanner.execute`, with `fuel = maxIterations - iterations` remaining
turns.  `gw` is the Gateway oracle giving the chunk sequence
`gateway.stream({messages, ...})` yields for a message list. -/
def execLoop (gw : List Message → List (Chunk α))
    (pm : String → α → Except String ToolResult) (stringify : α → String) :
    Nat → List Message → ExecResult α
  | 0, ms => { out := [Chunk.warning warningText], messages := ms,
               gwCalls := 0, toolInvocations := 0 }
  | n + 1, ms =>
    let chunks := gw ms
    let fwd := forwardedChunks chunks
    let tcs := toolCallsOf chunks
    if tcs.isEmpty then
      { out := fwd ++ [Chunk.done none], messages := ms,
        gwCalls := 1, toolInvocations := 0 }
    else
      let ms1 := ms ++ [assistantMessage stringify (responseTextOf chunks) tcs]
      let results := tcs.map (runOneTool pm)
      let toolOut := (results.map Prod.fst).flatten
      let ms2 := ms1 ++ results.map Prod.snd
      let r := execLoop gw pm stringify n ms2
      { out := fwd ++ [Chunk.status executingStatusText] ++ toolOut
               ++ [Chunk.status "\n"] ++ r.out,
        messages := r.messages,
        gwCalls := 1 + r.gwCalls,
        toolInvocations := tcs.length + r.toolInvocations }

/-- `TaskPlanner.execute(context)`: runs the loop on a private copy of
`context.messages` for at most `maxIterations` turns. -/
def TaskPlanner.execute (gw : List Message → List (Chunk α))
    (pm : String → α → Except String ToolResult) (stringify : α → String)
    (contextMessages : List Message) : ExecResult α :=
  execLoop gw pm stringify TaskPlanner.maxIterations contextMessages

/-- A heap of JS array objects holding message lists; an array reference is
its allocation index.  Used to make the aliasing behavior of
`let messages = [...context.messages]` and the subsequent `messages.push`
calls explicit. -/
abbrev Heap := List (List Message)

/-- Dereference an array. -/
def hGet (h : Heap) (r : Nat) : List Message := (h[r]?).getD []

/-- `arr.push(m)` on the array referenced by `r`. -/
def hPush (h : Heap) (r : Nat) (m : Message) : Heap := h.set r (hGet h r ++ [m])

/-- The same `while` loop as `execLoop`, but with the private `messages` array
living in the heap at reference `r` and every `messages.push` performed on it. -/
def execLoopH (gw : List Message → List (Chunk α))
    (pm : String → α → Except String ToolResult) (stringify : α → String) :
    Nat → Heap → Nat → List (Chunk α) × Heap
  | 0, h, _ => ([Chunk.warning warningText], h)
  | n + 1, h, r =>
    let ms := hGet h r
    let chunks := gw ms
    let fwd := forwardedChunks chunks
    let tcs := toolCallsOf chunks
    if tcs.isEmpty then (fwd ++ [Chunk.done none], h)
    else
      let h1 := hPush h r (assistantMessage stringify (responseTextOf chunks) tcs)
      let results := tcs.map (runOneTool pm)
      let toolOut := (results.map Prod.fst).flatten
      let h2 := results.foldl (fun hh res => hPush hh r res.2) h1
      let p := execLoopH gw pm stringify n h2 r
      (fwd ++ [Chunk.status executingStatusText] ++ toolOut
         ++ [Chunk.status "\n"] ++ p.1, p.2)

/-- `TaskPlanner.execute(context)` with the caller's `context.messages` living
in the heap at `ctxRef`: `let messages = [...context.messages]` allocates a
fresh array holding a copy, and the run works only on that copy. -/
def TaskPlanner.executeH (gw : List Message → List (Chunk α))
    (pm : String → α → Except String ToolResult) (stringify : α → String)
    (h : Heap) (ctxRef : Nat) : List (Chunk α) × Heap :=
  execLoopH gw pm stringify TaskPlanner.maxIterations (h ++ [hGet h ctxRef]) h.length

/-! ### Gateway: unfolding lemmas for the recursive `stream` -/

theorem streamFrom_of_ok (parse : String → Except String α)
    (attempt : String → TransportResult) (model : String)
    (h : (streamAttempt parse model (attempt model)).2 = none) :
    streamFrom parse attempt model =
      { out := (streamAttempt parse model (attempt model)).1,
        err := none, attempts := [model] } := by
  rw [streamFrom, h]

theorem streamFrom_of_err_fast (parse : String → Except String α)
    (attempt : String → TransportResult) (model : String) (e : String)
    (h : (streamAttempt parse model (attempt model)).2 = some e)
    (hm : model = Config.fastModel) :
    streamFrom parse attempt model =
      { out := (streamAttempt parse model (attempt model)).1,
        err := some e, attempts := [model] } := by
  rw [streamFrom, h]
  simp [hm]

theorem streamFrom_of_err (parse : String → Except String α)
    (attempt : String → TransportResult) (model : String) (e : String)
    (h : (streamAttempt parse model (attempt model)).2 = some e)
    (hm : model ≠ Config.fastModel) :
    streamFrom parse attempt model =
      { out := (streamAttempt parse model (attempt model)).1 ++
                 (streamFrom parse attempt Config.fastModel).out,
        err := (streamFrom parse attempt Config.fastModel).err,
        attempts := model :: (streamFrom parse attempt Config.fastModel).attempts } := by
  rw [streamFrom, h]
  simp [hm]

theorem streamFrom_fast_attempts (parse : String → Except String α)
    (attempt : String → TransportResult) :
    (streamFrom parse attempt Config.fastModel).attempts = [Config.fastModel] := by
  rcases hh : (streamAttempt parse Config.fastModel (attempt Config.fastModel)).2 with _ | e
  · rw [streamFrom_of_ok parse attempt Config.fastModel hh]
  · rw [streamFrom_of_err_fast parse attempt Config.fastModel e hh rfl]

theorem streamFrom_attempts_le_two (parse : String → Except String α)
    (attempt : String → TransportResult) (model : String) :
    (streamFrom parse attempt model).attempts.length ≤ 2 := by
  rcases hh : (streamAttempt parse model (attempt model)).2 with _ | e
  · rw [streamFrom_of_ok parse attempt model hh]; simp
  · by_cases hm : model = Config.fastModel
    · rw [streamFrom_of_err_fast parse attempt model e hh hm]; simp
    · rw [streamFrom_of_err parse attempt model e hh hm,
        streamFrom_fast_attempts parse attempt]
      simp

/-- C2: in every `stream` invocation whose underlying model call fails, if the
model in use is not the fallback model the whole request is retried exactly
once against `config.ai.fastModel` (the attempt trace is exactly
`[model, fastModel]`); if the model in use is already the fallback model the
error propagates uncaught; no third model is ever attempted, so the attempt
trace never exceeds length 2. -/
theorem fallback_retried_once_and_bounded (parse : String → Except String α)
    (attempt : String → TransportResult) (model : String) (e : String)
    (hfail : (streamAttempt parse model (attempt model)).2 = some e) :
    (streamFrom parse attempt model).attempts.length ≤ 2 ∧
    (model ≠ Config.fastModel →
      streamFrom parse attempt model =
        { out := (streamAttempt parse model (attempt model)).1 ++
                   (streamFrom parse attempt Config.fastModel).out,
          err := (streamFrom parse attempt Config.fastModel).err,
          attempts := [model, Config.fastModel] }) ∧
    (model = Config.fastModel →
      streamFrom parse attempt model =
        { out := (streamAttempt parse model (attempt model)).1,
          err := some e, attempts := [model] }) := by
  refine ⟨streamFrom_attempts_le_two parse attempt model, ?_, ?_⟩
  · intro hm
    rw [streamFrom_of_err parse attempt model e hfail hm,
      streamFrom_fast_attempts parse attempt]
  · intro hm
    exact streamFrom_of_err_fast parse attempt model e hfail hm

/-- Always-succeeding parse oracle used by concrete gateway scenarios. -/
def okParse : String → Except String String := fun s => .ok s

/-- A transport on which every model's call fails immediately. -/
def failingTransport : String → TransportResult := fun _ => { chunks := [], err := some "boom" }

theorem fallback_retried_once_and_bounded_witness :
    (streamFrom okParse failingTransport "llama-3.3-70b-versatile").attempts.length ≤ 2 ∧
    streamFrom okParse failingTransport "llama-3.3-70b-versatile" =
      { out := [], err := some "boom",
        attempts := ["llama-3.3-70b-versatile", "llama-3.1-8b-instant"] } := by
  have h := fallback_retried_once_and_bounded okParse failingTransport
    "llama-3.3-70b-versatile" "boom" rfl
  refine ⟨h.1, ?_⟩
  rw [h.2.1 (by decide)]
  rw [(fallback_retried_once_and_bounded okParse failingTransport
    Config.fastModel "boom" rfl).2.2 rfl]
  decide

/-! ### The Gateway's output vocabulary -/

/-- The chunk variants the Gateway can produce (`content`, `tool_call`, `done`). -/
def gatewayChunk : Chunk α → Bool
  | Chunk.content _ _ => true
  | Chunk.tool_call _ _ _ _ => true
  | Chunk.done _ => true
  | _ => false

theorem emitToolCalls_gatewayChunk (parse : String → Except String α) (model : String) :
    ∀ (st : AccState) (out : List (Chunk α)), emitToolCalls parse model st = .ok out →
      ∀ c ∈ out, gatewayChunk c = true := by
  intro st
  induction st with
  | nil =>
    intro out h c hc
    simp only [emitToolCalls] at h
    cases h
    simp at hc
  | cons hd tl ih =>
    intro out h c hc
    cases hd with
    | none => simp [emitToolCalls] at h
    | some a =>
      simp only [emitToolCalls] at h
      by_cases hn : a.name = ""
      · rw [if_pos hn] at h
        exact ih out h c hc
      · rw [if_neg hn] at h
        cases hp : parse (if a.arguments = "" then "\x7b\x7d" else a.arguments) with
        | error e => rw [hp] at h; cases h
        | ok v =>
          rw [hp] at h
          cases ht : emitToolCalls parse model tl with
          | error e => rw [ht] at h; cases h
          | ok tail =>
            rw [ht] at h
            simp only [Except.bind, bind] at h
            cases h
            rw [List.mem_cons] at hc
            rcases hc with hc | hc
            · subst hc; simp [gatewayChunk]
            · exact ih tail ht c hc

theorem contentOutOf_gatewayChunk (model : String) (wc : WireChunk) :
    ∀ c ∈ (contentOutOf model wc : List (Chunk α)), gatewayChunk c = true := by
  intro c hc
  unfold contentOutOf at hc
  rcases hd : wc.delta with _ | d
  · rw [hd] at hc; simp at hc
  · rw [hd] at hc
    dsimp only at hc
    rcases hs : d.content with _ | s
    · rw [hs] at hc; simp at hc
    · rw [hs] at hc
      dsimp only at hc
      by_cases hz : s = ""
      · rw [if_pos hz] at hc; simp at hc
      · rw [if_neg hz] at hc
        simp at hc
        subst hc
        simp [gatewayChunk]

theorem processChunk_gatewayChunk (parse : String → Except String α) (model : String)
    (st : AccState) (wc : WireChunk) :
    ∀ c ∈ (processChunk parse model st wc).1, gatewayChunk c = true := by
  intro c hc
  unfold processChunk at hc
  by_cases hf : wc.finish_reason = some "tool_calls"
  · rw [if_pos hf] at hc
    cases he : emitToolCalls parse model (accAfter st wc : AccState) (α := α) with
    | ok out2 =>
      rw [he] at hc
      simp only [List.mem_append] at hc
      rcases hc with hc | hc
      · exact contentOutOf_gatewayChunk model wc c hc
      · exact emitToolCalls_gatewayChunk parse model _ out2 he c hc
    | error e =>
      rw [he] at hc
      exact contentOutOf_gatewayChunk model wc c hc
  · rw [if_neg hf] at hc
    exact contentOutOf_gatewayChunk model wc c hc

theorem processChunks_gatewayChunk (parse : String → Except String α) (model : String) :
    ∀ (wcs : List WireChunk) (st : AccState),
      ∀ c ∈ (processChunks parse model st wcs).1, gatewayChunk c = true := by
  intro wcs
  induction wcs with
  | nil => intro st c hc; simp [processChunks] at hc
  | cons w ws ih =>
    intro st c hc
    unfold processChunks at hc
    dsimp only at hc
    rcases he : (processChunk parse model st w).2.2 with _ | e
    · rw [he] at hc
      simp only [List.mem_append] at hc
      rcases hc with hc | hc
      · exact processChunk_gatewayChunk parse model st w c hc
      · exact ih (processChunk parse model st w).2.1 c hc
    · rw [he] at hc
      exact processChunk_gatewayChunk parse model st w c hc

theorem streamAttempt_gatewayChunk (parse : String → Except String α) (model : String)
    (t : TransportResult) :
    ∀ c ∈ (streamAttempt parse model t).1, gatewayChunk c = true := by
  intro c hc
  unfold streamAttempt at hc
  dsimp only at hc
  rcases hp : (processChunks parse model ([] : AccState) t.chunks).2 with _ | e
  · rw [hp] at hc
    rcases ht : t.err with _ | e
    · rw [ht] at hc
      simp only [List.mem_append] at hc
      rcases hc with hc | hc
      · exact processChunks_gatewayChunk parse model t.chunks [] c hc
      · simp at hc; subst hc; simp [gatewayChunk]
    · rw [ht] at hc
      exact processChunks_gatewayChunk parse model t.chunks [] c hc
  · rw [hp] at hc
    exact processChunks_gatewayChunk parse model t.chunks [] c hc

theorem streamFrom_gatewayChunk (parse : String → Except String α)
    (attempt : String → TransportResult) (model : String) :
    ∀ c ∈ (streamFrom parse attempt model).out, gatewayChunk c = true := by
  have base : ∀ c ∈ (streamFrom parse attempt Config.fastModel).out, gatewayChunk c = true := by
    intro c hc
    rcases hh : (streamAttempt parse Config.fastModel (attempt Config.fastModel)).2 with _ | e
    · rw [streamFrom_of_ok parse attempt Config.fastModel hh] at hc
      exact streamAttempt_gatewayChunk parse Config.fastModel _ c hc
    · rw [streamFrom_of_err_fast parse attempt Config.fastModel e hh rfl] at hc
      exact streamAttempt_gatewayChunk parse Config.fastModel _ c hc
  intro c hc
  rcases hh : (streamAttempt parse model (attempt model)).2 with _ | e
  · rw [streamFrom_of_ok parse attempt model hh] at hc
    exact streamAttempt_gatewayChunk parse model _ c hc
  · by_cases hm : model = Config.fastModel
    · rw [streamFrom_of_err_fast parse attempt model e hh hm] at hc
      exact streamAttempt_gatewayChunk parse model _ c hc
    · rw [streamFrom_of_err parse attempt model e hh hm] at hc
      simp only [List.mem_append] at hc
      rcases hc with hc | hc
      · exact streamAttempt_gatewayChunk parse model _ c hc
      · exact base c hc

/-- C3 (amended): a parse failure of accumulated tool-call argument text is
raised inside the streaming try-block and handled exactly like a transport
error: the Gateway never emits a `tool_error` chunk (its output vocabulary is
`content`/`tool_call`/`done` only); when the turn's processing raises while
the transport itself succeeded, a non-fallback model triggers a full retry
against the fallback model, and the fallback model propagates the error to
the caller. -/
theorem malformed_arguments_handled_by_fallback_catch
    (parse : String → Except String α) (attempt : String → TransportResult)
    (model : String) (e : String)
    (_htransport : (attempt model).err = none)
    (hprocess : (processChunks parse model [] (attempt model).chunks).2 = some e) :
    (∀ c ∈ (streamFrom parse attempt model).out, gatewayChunk c = true) ∧
    (model ≠ Config.fastModel →
      (streamFrom parse attempt model).attempts = [model, Config.fastModel]) ∧
    (model = Config.fastModel →
      (streamFrom parse attempt model).err = some e) := by
  have hfail : (streamAttempt parse model (attempt model)).2 = some e := by
    unfold streamAttempt
    dsimp only
    rw [hprocess]
  refine ⟨streamFrom_gatewayChunk parse attempt model, ?_, ?_⟩
  · intro hm
    rw [streamFrom_of_err parse attempt model e hfail hm,
      streamFrom_fast_attempts parse attempt]
  · intro hm
    rw [streamFrom_of_err_fast parse attempt model e hfail hm]

/-- Parse oracle that fails on the accumulated text `"oops"` (modelling
`JSON.parse` raising on malformed argument text). -/
def oopsParse : String → Except String String :=
  fun s => if s = "oops" then .error "SyntaxError: Unexpected token" else .ok s

/-- Transport whose primary-model turn streams one tool-call delta with
malformed argument text `"oops"` and finishes with `tool_calls`; the fallback
model's turn streams nothing and ends cleanly. -/
def oopsDelta : WireToolCallDelta :=
  { index := some 0, id := some "call_1", fname := some "tool_a",
    farguments := some "oops" }

def oopsTransport : String → TransportResult := fun m =>
  if m = "llama-3.3-70b-versatile" then
    { chunks :=
        [{ delta := some { content := none, tool_calls := some [oopsDelta] },
           finish_reason := none },
         { delta := none, finish_reason := some "tool_calls" }],
      err := none }
  else { chunks := [], err := none }

theorem malformed_arguments_handled_by_fallback_catch_witness :
    (∀ c ∈ (streamFrom oopsParse oopsTransport "llama-3.3-70b-versatile").out,
        gatewayChunk c = true) ∧
    (streamFrom oopsParse oopsTransport "llama-3.3-70b-versatile").attempts =
      ["llama-3.3-70b-versatile", Config.fastModel] := by
  have h := malformed_arguments_handled_by_fallback_catch oopsParse oopsTransport
    "llama-3.3-70b-versatile" "SyntaxError: Unexpected token" (by decide) (by decide)
  exact ⟨h.1, h.2.1 (by decide)⟩

/-- C3 (counterexample): on a turn whose accumulated tool-call argument text
fails to parse, the code does not emit a `tool_error` chunk and does trigger a
model retry: the whole run is re-issued against the fallback model (two
attempts), and the output contains no `tool_error` chunk at all. -/
theorem malformed_arguments_counterexample :
    streamFrom oopsParse oopsTransport "llama-3.3-70b-versatile" =
      { out := [Chunk.done (some "llama-3.1-8b-instant")], err := none,
        attempts := ["llama-3.3-70b-versatile", "llama-3.1-8b-instant"] } ∧
    ((streamFrom oopsParse oopsTransport "llama-3.3-70b-versatile").out.all
      fun c => match c with | Chunk.tool_error _ _ => false | _ => true) = true ∧
    (streamFrom oopsParse oopsTransport "llama-3.3-70b-versatile").attempts.length = 2 := by
  rw [streamFrom, streamFrom]
  refine ⟨by decide, ?_, by decide⟩
  rw [streamFrom, streamFrom]
  decide

/-! ### `complete` as the fold of `stream` -/

/-- Modelled from the spec's words (refinement reference, not from the code):
the fold of a chunk sequence — the concatenation, in emission order, of the
`content` fields of all `content` chunks, and the sequence of all `tool_call`
chunks in emission order. -/
def specFold (out : List (Chunk α)) : CompleteResult α :=
  { content := String.join (out.filterMap fun c =>
      match c with | Chunk.content s _ => some s | _ => none),
    toolCalls := out.filter fun c =>
      match c with | Chunk.tool_call _ _ _ _ => true | _ => false }

theorem join_cons (s : String) (l : List String) :
    String.join (s :: l) = s ++ String.join l := by
  apply String.ext
  simp [String.data_join, String.data_append]

theorem foldl_completeStep (l : List (Chunk α)) : ∀ acc : String × List (Chunk α),
    l.foldl completeStep acc =
      (acc.1 ++ String.join (l.filterMap fun c =>
         match c with | Chunk.content s _ => some s | _ => none),
       acc.2 ++ l.filter fun c =>
         match c with | Chunk.tool_call _ _ _ _ => true | _ => false) := by
  induction l with
  | nil =>
    intro acc
    simp [String.join]
  | cons c cs ih =>
    intro acc
    cases c with
    | content s m =>
      simp only [List.foldl_cons, completeStep, ih, List.filterMap_cons, List.filter_cons]
      simp [join_cons, String.append_assoc]
    | tool_call t a i m =>
      simp only [List.foldl_cons, completeStep, ih, List.filterMap_cons, List.filter_cons]
      simp
    | done m =>
      simp only [List.foldl_cons, completeStep, ih, List.filterMap_cons, List.filter_cons]
      simp
    | status s =>
      simp only [List.foldl_cons, completeStep, ih, List.filterMap_cons, List.filter_cons]
      simp
    | tool_start t s =>
      simp only [List.foldl_cons, completeStep, ih, List.filterMap_cons, List.filter_cons]
      simp
    | tool_result t s =>
      simp only [List.foldl_cons, completeStep, ih, List.filterMap_cons, List.filter_cons]
      simp
    | tool_error t s =>
      simp only [List.foldl_cons, completeStep, ih, List.filterMap_cons, List.filter_cons]
      simp
    | warning s =>
      simp only [List.foldl_cons, completeStep, ih, List.filterMap_cons, List.filter_cons]
      simp

/-- C9: `complete(request)` equals the fold of `stream(request)` — its
`content` is the concatenation, in emission order, of the `content` fields of
all `content` chunks, its `toolCalls` is the sequence of all `tool_call`
chunks in emission order, and a stream error rejects `complete`; moreover
`complete` interacts with the network only through that one `stream`
invocation: any transport giving the same stream result gives the same
`complete` result. -/
theorem complete_is_fold_of_stream (parse : String → Except String α)
    (attempt : String → TransportResult) (taskType : Option String)
    (modelName : Option String) :
    AIGateway.complete parse attempt taskType modelName =
      (match (AIGateway.stream parse attempt taskType modelName).err with
       | some e => .error e
       | none => .ok (specFold (AIGateway.stream parse attempt taskType modelName).out)) ∧
    (∀ attempt2 : String → TransportResult,
      AIGateway.stream parse attempt taskType modelName =
        AIGateway.stream parse attempt2 taskType modelName →
      AIGateway.complete parse attempt taskType modelName =
        AIGateway.complete parse attempt2 taskType modelName) := by
  constructor
  · unfold AIGateway.complete
    rcases he : (AIGateway.stream parse attempt taskType modelName).err with _ | e
    · dsimp only
      rw [he]
      dsimp only
      rw [foldl_completeStep]
      simp [specFold, String.empty_append]
    · dsimp only
      rw [he]
  · intro attempt2 hsame
    unfold AIGateway.complete
    rw [hsame]

theorem complete_is_fold_of_stream_witness :
    AIGateway.complete okParse (fun _ => { chunks := [], err := none })
        (none : Option String) (none : Option String) =
      Except.ok { content := "", toolCalls := ([] : List (Chunk String)) } ∧
    AIGateway.complete okParse (fun _ => { chunks := [], err := none })
        (none : Option String) (none : Option String) =
      AIGateway.complete okParse (fun _ => { chunks := [], err := none })
        (none : Option String) (none : Option String) := by
  have h := complete_is_fold_of_stream okParse
    (fun _ => { chunks := [], err := none }) (none : Option String) (none : Option String)
  refine ⟨?_, h.2 (fun _ => { chunks := [], err := none }) rfl⟩
  rw [h.1]
  have hs : AIGateway.stream okParse (fun _ => { chunks := [], err := none })
      (none : Option String) (none : Option String) =
      { out := [Chunk.done (some "llama-3.3-70b-versatile")], err := none,
        attempts := ["llama-3.3-70b-versatile"] } := by
    unfold AIGateway.stream
    rw [streamFrom_of_ok _ _ _ (by decide)]
    decide
  rw [hs]
  rfl

/-! ### TaskPlanner loop structure -/

/-- The tool messages one iteration pushes, in request order. -/
def toolMessages (pm : String → α → Except String ToolResult) (tcs : List (TC α)) :
    List Message :=
  (tcs.map (runOneTool pm)).map Prod.snd

/-- The chunks the tool loop of one iteration yields, in request order. -/
def toolOutput (pm : String → α → Except String ToolResult) (tcs : List (TC α)) :
    List (Chunk α) :=
  ((tcs.map (runOneTool pm)).map Prod.fst).flatten

/-- The message list the next iteration's Gateway call receives, after a
turn that requested tools: the assistant message carrying the requests, then
one tool message per request. -/
def nextMessages (gw : List Message → List (Chunk α))
    (pm : String → α → Except String ToolResult) (stringify : α → String)
    (ms : List Message) : List Message :=
  (ms ++ [assistantMessage stringify (responseTextOf (gw ms)) (toolCallsOf (gw ms))]) ++
    toolMessages pm (toolCallsOf (gw ms))

theorem execLoop_succ_no_tools (gw : List Message → List (Chunk α))
    (pm : String → α → Except String ToolResult) (stringify : α → String)
    (n : Nat) (ms : List Message) (h : toolCallsOf (gw ms) = []) :
    execLoop gw pm stringify (n + 1) ms =
      { out := forwardedChunks (gw ms) ++ [Chunk.done none], messages := ms,
        gwCalls := 1, toolInvocations := 0 } := by
  conv_lhs => rw [execLoop]
  dsimp only
  rw [h]
  rfl

theorem execLoop_succ_tools (gw : List Message → List (Chunk α))
    (pm : String → α → Except String ToolResult) (stringify : α → String)
    (n : Nat) (ms : List Message) (h : toolCallsOf (gw ms) ≠ []) :
    execLoop gw pm stringify (n + 1) ms =
      { out := forwardedChunks (gw ms) ++ [Chunk.status executingStatusText] ++
                 toolOutput pm (toolCallsOf (gw ms)) ++ [Chunk.status "\n"] ++
                 (execLoop gw pm stringify n (nextMessages gw pm stringify ms)).out,
        messages := (execLoop gw pm stringify n (nextMessages gw pm stringify ms)).messages,
        gwCalls := 1 + (execLoop gw pm stringify n (nextMessages gw pm stringify ms)).gwCalls,
        toolInvocations := (toolCallsOf (gw ms)).length +
          (execLoop gw pm stringify n (nextMessages gw pm stringify ms)).toolInvocations } := by
  conv_lhs => rw [execLoop]
  dsimp only
  rw [if_neg (by simpa [List.isEmpty_iff] using h)]
  rfl

theorem execLoop_gwCalls_le (gw : List Message → List (Chunk α))
    (pm : String → α → Except String ToolResult) (stringify : α → String) :
    ∀ (n : Nat) (ms : List Message), (execLoop gw pm stringify n ms).gwCalls ≤ n := by
  intro n
  induction n with
  | zero => intro ms; simp [execLoop]
  | succ k ih =>
    intro ms
    by_cases h : toolCallsOf (gw ms) = []
    · rw [execLoop_succ_no_tools gw pm stringify k ms h]
      simp
    · rw [execLoop_succ_tools gw pm stringify k ms h]
      have := ih (nextMessages gw pm stringify ms)
      simp only
      omega

theorem execLoop_out_ne_nil (gw : List Message → List (Chunk α))
    (pm : String → α → Except String ToolResult) (stringify : α → String) :
    ∀ (n : Nat) (ms : List Message), (execLoop gw pm stringify n ms).out ≠ [] := by
  intro n
  cases n with
  | zero => intro ms; simp [execLoop]
  | succ k =>
    intro ms
    by_cases h : toolCallsOf (gw ms) = []
    · rw [execLoop_succ_no_tools gw pm stringify k ms h]
      simp
    · rw [execLoop_succ_tools gw pm stringify k ms h]
      simp

/-- The message list the `k`-th Gateway call of a run starting from `ms`
receives, assuming every earlier turn requested tools. -/
def msAt (gw : List Message → List (Chunk α))
    (pm : String → α → Except String ToolResult) (stringify : α → String)
    (ms : List Message) : Nat → List Message
  | 0 => ms
  | k + 1 => nextMessages gw pm stringify (msAt gw pm stringify ms k)

theorem msAt_shift (gw : List Message → List (Chunk α))
    (pm : String → α → Except String ToolResult) (stringify : α → String)
    (ms : List Message) :
    ∀ k : Nat, msAt gw pm stringify (nextMessages gw pm stringify ms) k =
      msAt gw pm stringify ms (k + 1) := by
  intro k
  induction k with
  | zero => rfl
  | succ j ih =>
    show nextMessages gw pm stringify (msAt gw pm stringify
      (nextMessages gw pm stringify ms) j) = _
    rw [ih]
    rfl

theorem execLoop_tools_upto (gw : List Message → List (Chunk α))
    (pm : String → α → Except String ToolResult) (stringify : α → String) :
    ∀ (n : Nat) (ms : List Message),
      (∀ k < n, toolCallsOf (gw (msAt gw pm stringify ms k)) ≠ []) →
      (execLoop gw pm stringify n ms).gwCalls = n ∧
      (execLoop gw pm stringify n ms).out.getLast? = some (Chunk.warning warningText) := by
  intro n
  induction n with
  | zero => intro ms _; simp [execLoop]
  | succ k ih =>
    intro ms htools
    have h0 : toolCallsOf (gw ms) ≠ [] := htools 0 (by omega)
    rw [execLoop_succ_tools gw pm stringify k ms h0]
    have hshift : ∀ j < k,
        toolCallsOf (gw (msAt gw pm stringify (nextMessages gw pm stringify ms) j)) ≠ [] := by
      intro j hj
      rw [msAt_shift]
      exact htools (j + 1) (by omega)
    have h1 := (ih (nextMessages gw pm stringify ms) hshift).1
    have h2 := (ih (nextMessages gw pm stringify ms) hshift).2
    constructor
    · simp only
      omega
    · simp only
      rw [List.append_assoc, List.append_assoc, List.append_assoc,
        List.getLast?_append_of_ne_nil, List.getLast?_append_of_ne_nil,
        List.getLast?_append_of_ne_nil, List.getLast?_append_of_ne_nil]
      · exact h2
      all_goals
        simp [execLoop_out_ne_nil gw pm stringify k (nextMessages gw pm stringify ms)]

/-- C1: a run never issues more than `maxIterations = 10` Gateway calls; and
when each of the 10 turns the run reaches still emits tool calls (so the
10th turn leaves unresolved tool calls), the run makes exactly 10 Gateway
calls and its last emitted chunk is the `warning` chunk — it stops without
issuing an 11th call. -/
theorem iteration_ceiling (gw : List Message → List (Chunk α))
    (pm : String → α → Except String ToolResult) (stringify : α → String)
    (ms : List Message) :
    (TaskPlanner.execute gw pm stringify ms).gwCalls ≤ 10 ∧
    ((∀ k < 10, toolCallsOf (gw (msAt gw pm stringify ms k)) ≠ []) →
      (TaskPlanner.execute gw pm stringify ms).gwCalls = 10 ∧
      (TaskPlanner.execute gw pm stringify ms).out.getLast? =
        some (Chunk.warning warningText)) := by
  constructor
  · exact execLoop_gwCalls_le gw pm stringify 10 ms
  · intro htools
    exact execLoop_tools_upto gw pm stringify 10 ms htools

/-- A Gateway oracle whose every turn requests one tool call. -/
def alwaysToolGw : List Message → List (Chunk String) := fun _ =>
  [Chunk.tool_call "t" "\x7b\x7d" (some "c1") "m"]

/-- A registry oracle whose every tool succeeds with a short string. -/
def okTools : String → String → Except String ToolResult := fun _ _ =>
  .ok (.str "ok")

theorem iteration_ceiling_witness :
    (TaskPlanner.execute alwaysToolGw okTools id []).gwCalls ≤ 10 ∧
    (TaskPlanner.execute alwaysToolGw okTools id []).gwCalls = 10 ∧
    (TaskPlanner.execute alwaysToolGw okTools id []).out.getLast? =
      some (Chunk.warning warningText) := by
  have h := iteration_ceiling alwaysToolGw okTools id []
  exact ⟨h.1, h.2 (fun k _ => by simp [alwaysToolGw, toolCallsOf])⟩

/-- C5: when the first model turn emits zero `tool_call` chunks, `execute`
forwards that turn's `content` chunks, emits exactly one `done` chunk and
terminates after exactly one Gateway call, invoking no tool. -/
theorem done_after_single_turn (gw : List Message → List (Chunk α))
    (pm : String → α → Except String ToolResult) (stringify : α → String)
    (ms : List Message) (h : toolCallsOf (gw ms) = []) :
    TaskPlanner.execute gw pm stringify ms =
      { out := forwardedChunks (gw ms) ++ [Chunk.done none], messages := ms,
        gwCalls := 1, toolInvocations := 0 } ∧
    ((TaskPlanner.execute gw pm stringify ms).out.countP
      fun c => match c with | Chunk.done _ => true | _ => false) = 1 := by
  have he : TaskPlanner.execute gw pm stringify ms =
      { out := forwardedChunks (gw ms) ++ [Chunk.done none], messages := ms,
        gwCalls := 1, toolInvocations := 0 } :=
    execLoop_succ_no_tools gw pm stringify 9 ms h
  refine ⟨he, ?_⟩
  rw [he]
  simp only [List.countP_append]
  have hfwd : (forwardedChunks (gw ms)).countP
      (fun c => match c with | Chunk.done _ => true | _ => false) = 0 := by
    rw [List.countP_eq_zero]
    intro c hc
    unfold forwardedChunks at hc
    have := List.of_mem_filter hc
    cases c <;> simp_all
  rw [hfwd]
  rfl

theorem done_after_single_turn_witness :
    TaskPlanner.execute (fun _ => [Chunk.content "4" "m"]) okTools id [] =
      { out := [Chunk.content "4" "m", Chunk.done none], messages := [],
        gwCalls := 1, toolInvocations := 0 } ∧
    ((TaskPlanner.execute (fun _ => [Chunk.content "4" "m"]) okTools id []).out.countP
      fun c => match c with | Chunk.done _ => true | _ => false) = 1 := by
  have h := done_after_single_turn (fun _ => [Chunk.content "4" "m"]) okTools id []
    (by simp [toolCallsOf])
  refine ⟨?_, h.2⟩
  rw [h.1]
  rfl

theorem runOneTool_snd_role (pm : String → α → Except String ToolResult) (tc : TC α) :
    (runOneTool pm tc).2.role = "tool" := by
  unfold runOneTool
  cases pm tc.tool tc.arguments <;> rfl

theorem runOneTool_snd_id (pm : String → α → Except String ToolResult) (tc : TC α) :
    (runOneTool pm tc).2.tool_call_id = tc.id := by
  unfold runOneTool
  cases pm tc.tool tc.arguments <;> rfl

/-- C4: in every iteration whose turn requested tools, the loop's next
Gateway call receives the previous messages extended by exactly the assistant
message carrying the tool-call requests, immediately followed by one `tool`
message per requested call, each tagged with that call's id, in request
order. -/
theorem role_sequencing_invariant (gw : List Message → List (Chunk α))
    (pm : String → α → Except String ToolResult) (stringify : α → String)
    (n : Nat) (ms : List Message) (h : toolCallsOf (gw ms) ≠ []) :
    (execLoop gw pm stringify (n + 1) ms).out =
      forwardedChunks (gw ms) ++ [Chunk.status executingStatusText] ++
        toolOutput pm (toolCallsOf (gw ms)) ++ [Chunk.status "\n"] ++
        (execLoop gw pm stringify n (nextMessages gw pm stringify ms)).out ∧
    nextMessages gw pm stringify ms =
      (ms ++ [assistantMessage stringify (responseTextOf (gw ms)) (toolCallsOf (gw ms))]) ++
        toolMessages pm (toolCallsOf (gw ms)) ∧
    (toolMessages pm (toolCallsOf (gw ms))).length = (toolCallsOf (gw ms)).length ∧
    (assistantMessage stringify (responseTextOf (gw ms)) (toolCallsOf (gw ms))).role =
      "assistant" ∧
    (assistantMessage stringify (responseTextOf (gw ms)) (toolCallsOf (gw ms))).tool_calls =
      some ((toolCallsOf (gw ms)).map fun tc =>
        { id := tc.id, name := tc.tool, arguments := stringify tc.arguments }) ∧
    ∀ i : Nat, ∀ tc : TC α, (toolCallsOf (gw ms)).get? i = some tc →
      ∃ m, (toolMessages pm (toolCallsOf (gw ms))).get? i = some m ∧
        m.role = "tool" ∧ m.tool_call_id = tc.id := by
  refine ⟨?_, rfl, ?_, rfl, rfl, ?_⟩
  · rw [execLoop_succ_tools gw pm stringify n ms h]
  · simp [toolMessages]
  · intro i tc htc
    refine ⟨(runOneTool pm tc).2, ?_, runOneTool_snd_role pm tc, runOneTool_snd_id pm tc⟩
    unfold toolMessages
    rw [List.get?_map, List.get?_map, htc]
    rfl

theorem role_sequencing_invariant_witness :
    nextMessages alwaysToolGw okTools id [] =
      ([] ++ [assistantMessage id (responseTextOf (alwaysToolGw []))
               (toolCallsOf (alwaysToolGw []))]) ++
        toolMessages okTools (toolCallsOf (alwaysToolGw [])) ∧
    ∃ m, (toolMessages okTools (toolCallsOf (alwaysToolGw []))).get? 0 = some m ∧
      m.role = "tool" ∧ m.tool_call_id = some "c1" := by
  have h := role_sequencing_invariant alwaysToolGw okTools id 0 []
    (by simp [alwaysToolGw, toolCallsOf])
  refine ⟨h.2.1, ?_⟩
  exact h.2.2.2.2.2 0 { tool := "t", arguments := "\x7b\x7d", id := some "c1" } (by decide)

/-- C6: a failing tool invocation (including an unknown tool name, which the
registry turns into an `Unknown tool: name` failure) yields a `tool_error`
chunk with the error description and a `tool` message carrying the error text
tagged with the same call id; the run is not aborted: with a following turn
that requests no tools, the run still ends in the `done` terminal chunk. -/
theorem tool_failure_never_aborts (gw : List Message → List (Chunk α))
    (reg : Registry α) (stringify : α → String) (n : Nat) (ms : List Message)
    (tc : TC α) (e : String)
    (h1 : toolCallsOf (gw ms) = [tc])
    (h2 : PluginManager.execute reg tc.tool tc.arguments = .error e)
    (h3 : toolCallsOf
      (gw (nextMessages gw (PluginManager.execute reg) stringify ms)) = []) :
    execLoop gw (PluginManager.execute reg) stringify (n + 2) ms =
      { out := forwardedChunks (gw ms) ++ [Chunk.status executingStatusText] ++
               [toolStartChunk tc, Chunk.tool_error tc.tool ("> Error: " ++ e ++ "\n")] ++
               [Chunk.status "\n"] ++
               forwardedChunks
                 (gw (nextMessages gw (PluginManager.execute reg) stringify ms)) ++
               [Chunk.done none],
        messages := nextMessages gw (PluginManager.execute reg) stringify ms,
        gwCalls := 2, toolInvocations := 1 } ∧
    nextMessages gw (PluginManager.execute reg) stringify ms =
      (ms ++ [assistantMessage stringify (responseTextOf (gw ms)) [tc]]) ++
        [{ role := "tool", tool_call_id := tc.id, content := "Error: " ++ e }] ∧
    (execLoop gw (PluginManager.execute reg) stringify (n + 2) ms).out.getLast? =
      some (Chunk.done none) ∧
    (∀ (name : String) (args : α), reg.lookup name = none →
      PluginManager.execute reg name args = .error ("Unknown tool: " ++ name)) := by
  have hne : toolCallsOf (gw ms) ≠ [] := by rw [h1]; simp
  have hstep := execLoop_succ_tools gw (PluginManager.execute reg) stringify (n + 1) ms hne
  have hdone := execLoop_succ_no_tools gw (PluginManager.execute reg) stringify n
    (nextMessages gw (PluginManager.execute reg) stringify ms) h3
  have hout : toolOutput (PluginManager.execute reg) (toolCallsOf (gw ms)) =
      [toolStartChunk tc, Chunk.tool_error tc.tool ("> Error: " ++ e ++ "\n")] := by
    rw [h1]
    unfold toolOutput
    simp only [List.map_cons, List.map_nil, List.flatten_cons, List.flatten_nil,
      List.append_nil]
    unfold runOneTool
    rw [h2]
  have hmsgs : toolMessages (PluginManager.execute reg) (toolCallsOf (gw ms)) =
      [{ role := "tool", tool_call_id := tc.id, content := "Error: " ++ e }] := by
    rw [h1]
    unfold toolMessages
    simp only [List.map_cons, List.map_nil]
    unfold runOneTool
    rw [h2]
  have hfull : execLoop gw (PluginManager.execute reg) stringify (n + 2) ms =
      { out := forwardedChunks (gw ms) ++ [Chunk.status executingStatusText] ++
               [toolStartChunk tc, Chunk.tool_error tc.tool ("> Error: " ++ e ++ "\n")] ++
               [Chunk.status "\n"] ++
               forwardedChunks
                 (gw (nextMessages gw (PluginManager.execute reg) stringify ms)) ++
               [Chunk.done none],
        messages := nextMessages gw (PluginManager.execute reg) stringify ms,
        gwCalls := 2, toolInvocations := 1 } := by
    rw [hstep, hdone, hout, h1]
    simp
  refine ⟨hfull, ?_, ?_, ?_⟩
  · unfold nextMessages
    rw [hmsgs, h1]
  · rw [hfull]
    simp only
    rw [List.getLast?_append_of_ne_nil]
    · rfl
    · simp
  · intro name args hlook
    unfold PluginManager.execute
    rw [hlook]

/-- A Gateway oracle that requests the unregistered tool `missing` on the
first turn (empty history) and no tools afterwards. -/
def failThenDoneGw : List Message → List (Chunk String) := fun ms =>
  if ms.length = 0 then [Chunk.tool_call "missing" "\x7b\x7d" (some "c9") "m"]
  else [Chunk.content "all done" "m"]

theorem tool_failure_never_aborts_witness :
    execLoop failThenDoneGw (PluginManager.execute ([] : Registry String)) id 2 [] =
      { out := forwardedChunks (failThenDoneGw []) ++ [Chunk.status executingStatusText] ++
               [toolStartChunk { tool := "missing", arguments := "\x7b\x7d", id := some "c9" },
                Chunk.tool_error "missing" ("> Error: " ++ "Unknown tool: missing" ++ "\n")] ++
               [Chunk.status "\n"] ++
               forwardedChunks
                 (failThenDoneGw (nextMessages failThenDoneGw
                   (PluginManager.execute ([] : Registry String)) id [])) ++
               [Chunk.done none],
        messages := nextMessages failThenDoneGw
          (PluginManager.execute ([] : Registry String)) id [],
        gwCalls := 2, toolInvocations := 1 } ∧
    (execLoop failThenDoneGw (PluginManager.execute ([] : Registry String)) id 2 []).out.getLast? =
      some (Chunk.done none) := by
  have h := tool_failure_never_aborts failThenDoneGw ([] : Registry String) id 0 []
    { tool := "missing", arguments := "\x7b\x7d", id := some "c9" }
    "Unknown tool: missing" (by decide) rfl
    (by
      rw [show nextMessages failThenDoneGw (PluginManager.execute ([] : Registry String)) id [] =
        (([] : List Message) ++ [assistantMessage id
          (responseTextOf (failThenDoneGw []))
          [{ tool := "missing", arguments := "\x7b\x7d", id := some "c9" }]]) ++
          [{ role := "tool", tool_call_id := some "c9",
             content := "Error: " ++ "Unknown tool: missing" }] from by
        unfold nextMessages toolMessages runOneTool
        decide]
      decide)
  exact ⟨h.1, h.2.2.1⟩

/-! ### Result truncation -/

theorem length_jsSubstring (s : String) (n : Nat) :
    (jsSubstring s n).length = min n s.length := by
  show (s.data.take n).length = min n s.data.length
  exact s.data.length_take n

theorem formatResult_str_long (s : String) (h : s.length > 200) :
    formatResult (.str s) = jsSubstring s 200 ++ "..." := by
  unfold formatResult
  dsimp only
  rw [if_pos h]

/-- A 500-character string result. -/
def fiveHundredAs : String := String.mk (List.replicate 500 'a')

set_option maxRecDepth 8000 in
/-- C8 (counterexample): for a tool returning a 500-character string, the
emitted `tool_result` chunk's `content` is the truncated rendering wrapped in
`> Result: ...\n`, whose length is 214, not at most 203 as claimed. -/
theorem truncation_counterexample :
    (runOneTool (fun _ _ => Except.ok (ToolResult.str fiveHundredAs))
        ({ tool := "t", arguments := "x", id := some "c1" } : TC String)).1 =
      [toolStartChunk { tool := "t", arguments := "x", id := some "c1" },
       Chunk.tool_result "t"
         ("> Result: " ++ (jsSubstring fiveHundredAs 200 ++ "...") ++ "\n")] ∧
    ("> Result: " ++ (jsSubstring fiveHundredAs 200 ++ "...") ++ "\n").length = 214 ∧
    ¬(("> Result: " ++ (jsSubstring fiveHundredAs 200 ++ "...") ++ "\n").length ≤ 203) := by
  refine ⟨?_, by decide, by decide⟩
  decide

/-- C8 (amended): for a tool returning a 500-character string, the truncated
rendering inside the `tool_result` chunk has length exactly 203 (200
characters plus the 3-character ellipsis marker), the chunk's `content` —
that rendering wrapped in the fixed `> Result: `/newline decoration — has
length 214, and the `tool` message appended to the conversation carries the
full untruncated 500-character result. -/
theorem truncation_amended (pm : String → α → Except String ToolResult)
    (tc : TC α) (s : String) (hlen : s.length = 500)
    (hok : pm tc.tool tc.arguments = .ok (.str s)) :
    (runOneTool pm tc).1 =
      [toolStartChunk tc,
       Chunk.tool_result tc.tool ("> Result: " ++ (jsSubstring s 200 ++ "...") ++ "\n")] ∧
    (formatResult (.str s)).length = 203 ∧
    ("> Result: " ++ (jsSubstring s 200 ++ "...") ++ "\n").length = 214 ∧
    (runOneTool pm tc).2 = { role := "tool", tool_call_id := tc.id, content := s } ∧
    (runOneTool pm tc).2.content.length = 500 := by
  have hgt : s.length > 200 := by omega
  have hfr : formatResult (.str s) = jsSubstring s 200 ++ "..." :=
    formatResult_str_long s hgt
  have hfrlen : (formatResult (.str s)).length = 203 := by
    rw [hfr, String.length_append, length_jsSubstring, hlen]
    decide
  have hclen : ("> Result: " ++ (jsSubstring s 200 ++ "...") ++ "\n").length = 214 := by
    rw [String.length_append, String.length_append, String.length_append,
      length_jsSubstring, hlen]
    decide
  have hrun : runOneTool pm tc =
      ([toolStartChunk tc,
        Chunk.tool_result tc.tool ("> Result: " ++ (jsSubstring s 200 ++ "...") ++ "\n")],
       { role := "tool", tool_call_id := tc.id, content := s }) := by
    unfold runOneTool
    rw [hok]
    dsimp only [serializeResult]
    rw [hfr]
  refine ⟨?_, hfrlen, hclen, ?_, ?_⟩
  · rw [hrun]
  · rw [hrun]
  · rw [hrun]
    exact hlen

set_option maxRecDepth 8000 in
theorem truncation_amended_witness :
    (runOneTool (fun _ _ => Except.ok (ToolResult.str fiveHundredAs))
        ({ tool := "t", arguments := "x", id := some "c1" } : TC String)).1 =
      [toolStartChunk { tool := "t", arguments := "x", id := some "c1" },
       Chunk.tool_result "t"
         ("> Result: " ++ (jsSubstring fiveHundredAs 200 ++ "...") ++ "\n")] ∧
    (formatResult (.str fiveHundredAs)).length = 203 ∧
    (runOneTool (fun _ _ => Except.ok (ToolResult.str fiveHundredAs))
        ({ tool := "t", arguments := "x", id := some "c1" } : TC String)).2.content.length =
      500 := by
  have h := truncation_amended (fun _ _ => Except.ok (ToolResult.str fiveHundredAs))
    ({ tool := "t", arguments := "x", id := some "c1" } : TC String) fiveHundredAs
    (by decide) rfl
  exact ⟨h.1, h.2.1, h.2.2.2.2⟩

/-! ### Fragment accumulation -/

/-- A wire delta carrying only an argument-text fragment for call index `i`. -/
def fragDelta (i : Nat) (s : String) : WireToolCallDelta :=
  { index := some i, id := none, fname := none, farguments := some s }

/-- A wire chunk carrying only tool-call deltas. -/
def deltaWire (ds : List WireToolCallDelta) : WireChunk :=
  { delta := some { content := none, tool_calls := some ds }, finish_reason := none }

/-- The turn-terminal wire chunk signalling a tool-call turn. -/
def finishWire : WireChunk := { delta := none, finish_reason := some "tool_calls" }

/-- A streaming turn that announces one tool call at index 0 (name and id),
delivers its argument text split into the fragments `fs` in arrival order,
then finishes with `tool_calls`. -/
def fragmentedWire (name : String) (id : Option String) (fs : List String) :
    List WireChunk :=
  deltaWire [{ index := some 0, id := id, fname := some name, farguments := none }] ::
    ((fs.map fun s => deltaWire [fragDelta 0 s]) ++ [finishWire])

theorem applyDelta_nameDelta (id : Option String) (name : String) :
    applyDelta [] { index := some 0, id := id, fname := some name, farguments := none } =
      [some { id := id, name := name, arguments := "" }] := by
  unfold applyDelta ensureLen
  dsimp only
  by_cases h : name = ""
  · subst h
    simp
  · simp [h]

theorem applyDelta_frag (a : ToolAcc) (s : String) :
    applyDelta [some a] (fragDelta 0 s) =
      [some { a with arguments := a.arguments ++ s }] := by
  unfold applyDelta fragDelta ensureLen
  dsimp only
  by_cases h : s = ""
  · subst h
    rw [String.append_empty]
    simp
  · simp [h]

theorem processChunk_deltaWire (parse : String → Except String α) (model : String)
    (st : AccState) (ds : List WireToolCallDelta) :
    processChunk parse model st (deltaWire ds) = ([], ds.foldl applyDelta st, none) := by
  unfold processChunk contentOutOf accAfter deltaWire
  dsimp only
  rfl

theorem processChunks_frags (parse : String → Except String α) (model : String)
    (fs : List String) : ∀ (a : ToolAcc) (cont : List WireChunk),
    processChunks parse model [some a]
        ((fs.map fun s => deltaWire [fragDelta 0 s]) ++ cont) =
      processChunks parse model
        [some { a with arguments := a.arguments ++ String.join fs }] cont := by
  induction fs with
  | nil =>
    intro a cont
    have : String.join [] = "" := rfl
    rw [this, String.append_empty]
    rfl
  | cons s rest ih =>
    intro a cont
    simp only [List.map_cons, List.cons_append]
    conv_lhs => rw [processChunks]
    rw [processChunk_deltaWire]
    dsimp only
    rw [List.foldl_cons, List.foldl_nil, applyDelta_frag]
    rw [ih { a with arguments := a.arguments ++ s } cont]
    dsimp only [List.nil_append]
    rw [join_cons, ← String.append_assoc]

/-- C7: per-index tool-call argument accumulation is a homomorphism from
fragment concatenation to the emitted result: a turn delivering the argument
text of the call at index 0 in any list of fragments produces exactly the
same Gateway output (and error) as the turn delivering the whole concatenated
text as a single fragment. -/
theorem fragment_accumulation_homomorphism (parse : String → Except String α)
    (model name : String) (id : Option String) (fs : List String) :
    (streamAttempt parse model { chunks := fragmentedWire name id fs, err := none } =
      streamAttempt parse model
        { chunks := fragmentedWire name id [String.join fs], err := none }) ∧
    (∀ (a : ToolAcc) (cont : List WireChunk),
      processChunks parse model [some a]
          ((fs.map fun s => deltaWire [fragDelta 0 s]) ++ cont) =
        processChunks parse model
          [some { a with arguments := a.arguments ++ String.join fs }] cont) := by
  refine ⟨?_, fun a cont => processChunks_frags parse model fs a cont⟩
  suffices hs : processChunks parse model [] (fragmentedWire name id fs) =
      processChunks parse model [] (fragmentedWire name id [String.join fs]) by
    unfold streamAttempt
    dsimp only
    rw [hs]
  unfold fragmentedWire
  conv_lhs => rw [processChunks]
  conv_rhs => rw [processChunks]
  rw [processChunk_deltaWire]
  dsimp only
  rw [List.foldl_cons, List.foldl_nil, applyDelta_nameDelta]
  rw [processChunks_frags, processChunks_frags]
  rw [join_cons]
  have : String.join [] = "" := rfl
  rw [this, String.append_empty]

/-! ### Frame property of the private message copy -/

theorem hPush_length (h : Heap) (r : Nat) (m : Message) :
    (hPush h r m).length = h.length := by
  unfold hPush
  exact List.length_set h r _

theorem hGet_hPush_ne (h : Heap) (r q : Nat) (m : Message) (hne : q ≠ r) :
    hGet (hPush h r m) q = hGet h q := by
  unfold hGet hPush
  rw [List.getElem?_set_ne (fun he => hne he.symm)]

theorem hGet_hPush_eq (h : Heap) (r : Nat) (m : Message) (hr : r < h.length) :
    hGet (hPush h r m) r = hGet h r ++ [m] := by
  unfold hGet hPush
  rw [List.getElem?_set_eq_of_lt _ hr]
  rfl

theorem foldl_hPush_length {β : Type} (g : β → Message) (l : List β) :
    ∀ (h : Heap) (r : Nat),
      (l.foldl (fun hh x => hPush hh r (g x)) h).length = h.length := by
  induction l with
  | nil => intro h r; rfl
  | cons x xs ih =>
    intro h r
    rw [List.foldl_cons, ih, hPush_length]

theorem foldl_hPush_frame {β : Type} (g : β → Message) (l : List β) :
    ∀ (h : Heap) (r q : Nat), q ≠ r →
      hGet (l.foldl (fun hh x => hPush hh r (g x)) h) q = hGet h q := by
  induction l with
  | nil => intro h r q _; rfl
  | cons x xs ih =>
    intro h r q hne
    rw [List.foldl_cons, ih _ _ _ hne, hGet_hPush_ne _ _ _ _ hne]

theorem foldl_hPush_get {β : Type} (g : β → Message) (l : List β) :
    ∀ (h : Heap) (r : Nat), r < h.length →
      hGet (l.foldl (fun hh x => hPush hh r (g x)) h) r = hGet h r ++ l.map g := by
  induction l with
  | nil => intro h r _; simp
  | cons x xs ih =>
    intro h r hr
    rw [List.foldl_cons, ih _ _ (by rw [hPush_length]; exact hr),
      hGet_hPush_eq _ _ _ hr]
    simp

theorem execLoopH_frame (gw : List Message → List (Chunk α))
    (pm : String → α → Except String ToolResult) (stringify : α → String) :
    ∀ (n : Nat) (h : Heap) (r q : Nat), q ≠ r →
      hGet (execLoopH gw pm stringify n h r).2 q = hGet h q := by
  intro n
  induction n with
  | zero => intro h r q _; rfl
  | succ k ih =>
    intro h r q hne
    unfold execLoopH
    dsimp only
    by_cases ht : (toolCallsOf (gw (hGet h r))).isEmpty
    · rw [if_pos ht]
    · rw [if_neg ht]
      dsimp only
      rw [ih _ _ _ hne, foldl_hPush_frame _ _ _ _ _ hne, hGet_hPush_ne _ _ _ _ hne]

theorem execLoopH_matches_execLoop (gw : List Message → List (Chunk α))
    (pm : String → α → Except String ToolResult) (stringify : α → String) :
    ∀ (n : Nat) (h : Heap) (r : Nat), r < h.length →
      (execLoopH gw pm stringify n h r).1 =
        (execLoop gw pm stringify n (hGet h r)).out ∧
      hGet (execLoopH gw pm stringify n h r).2 r =
        (execLoop gw pm stringify n (hGet h r)).messages ∧
      (execLoopH gw pm stringify n h r).2.length = h.length := by
  intro n
  induction n with
  | zero =>
    intro h r _
    refine ⟨rfl, rfl, rfl⟩
  | succ k ih =>
    intro h r hr
    by_cases ht : toolCallsOf (gw (hGet h r)) = []
    · have hloop := execLoop_succ_no_tools gw pm stringify k (hGet h r) ht
      unfold execLoopH
      dsimp only
      rw [if_pos (by rw [ht]; rfl), hloop]
      exact ⟨rfl, rfl, rfl⟩
    · have hloop := execLoop_succ_tools gw pm stringify k (hGet h r) ht
      unfold execLoopH
      dsimp only
      rw [if_neg (by simpa [List.isEmpty_iff] using ht)]
      dsimp only
      set a := assistantMessage stringify (responseTextOf (gw (hGet h r)))
        (toolCallsOf (gw (hGet h r))) with ha
      have h1len : (hPush h r a).length = h.length := hPush_length h r a
      have h2len : (((toolCallsOf (gw (hGet h r))).map (runOneTool pm)).foldl
          (fun hh res => hPush hh r res.2) (hPush h r a)).length = h.length := by
        rw [foldl_hPush_length, h1len]
      have hr2 : r < (((toolCallsOf (gw (hGet h r))).map (runOneTool pm)).foldl
          (fun hh res => hPush hh r res.2) (hPush h r a)).length := by
        rw [h2len]; exact hr
      have hst : hGet (((toolCallsOf (gw (hGet h r))).map (runOneTool pm)).foldl
          (fun hh res => hPush hh r res.2) (hPush h r a)) r =
          ((hGet h r ++ [a]) ++
            ((toolCallsOf (gw (hGet h r))).map (runOneTool pm)).map Prod.snd) := by
        rw [foldl_hPush_get _ _ _ _ (by rw [h1len]; exact hr), hGet_hPush_eq _ _ _ hr]
      have hnext : hGet (((toolCallsOf (gw (hGet h r))).map (runOneTool pm)).foldl
          (fun hh res => hPush hh r res.2) (hPush h r a)) r =
          nextMessages gw pm stringify (hGet h r) := by
        rw [hst]
        unfold nextMessages toolMessages
        rw [ha]
      have hk := ih (((toolCallsOf (gw (hGet h r))).map (runOneTool pm)).foldl
        (fun hh res => hPush hh r res.2) (hPush h r a)) r hr2
      rw [hnext] at hk
      refine ⟨?_, ?_, ?_⟩
      · rw [hloop]
        dsimp only
        rw [hk.1]
        rfl
      · rw [hloop]
        dsimp only
        have hframe := execLoopH_frame gw pm stringify k
        rw [hk.2.1]
      · rw [hk.2.2, h2len]

/-- C10: the caller's `context.messages` array is never mutated by a run:
`execute` starts from a private copy (`[...context.messages]`) and every
`messages.push` goes to that copy, so after the run the caller's array holds
exactly its original contents, while the run's output is that of the pure
loop on the copied contents. -/
theorem caller_messages_unchanged (gw : List Message → List (Chunk α))
    (pm : String → α → Except String ToolResult) (stringify : α → String)
    (h : Heap) (ctxRef : Nat) (href : ctxRef < h.length) :
    hGet (TaskPlanner.executeH gw pm stringify h ctxRef).2 ctxRef = hGet h ctxRef ∧
    (TaskPlanner.executeH gw pm stringify h ctxRef).1 =
      (TaskPlanner.execute gw pm stringify (hGet h ctxRef)).out := by
  have hleft : hGet (h ++ [hGet h ctxRef]) ctxRef = hGet h ctxRef := by
    unfold hGet
    rw [List.getElem?_append_left href]
  unfold TaskPlanner.executeH
  constructor
  · rw [execLoopH_frame gw pm stringify TaskPlanner.maxIterations
      (h ++ [hGet h ctxRef]) h.length ctxRef (by omega)]
    exact hleft
  · have hcopy : hGet (h ++ [hGet h ctxRef]) h.length = hGet h ctxRef := by
      unfold hGet
      rw [List.getElem?_concat_length]
      rfl
    have := (execLoopH_matches_execLoop gw pm stringify TaskPlanner.maxIterations
      (h ++ [hGet h ctxRef]) h.length (by simp)).1
    rw [this, hcopy]
    rfl

theorem caller_messages_unchanged_witness :
    hGet (TaskPlanner.executeH alwaysToolGw okTools id
      [[{ role := "user", content := "hi" }]] 0).2 0 =
      [{ role := "user", content := "hi" }] ∧
    (TaskPlanner.executeH alwaysToolGw okTools id
      [[{ role := "user", content := "hi" }]] 0).1 =
      (TaskPlanner.execute alwaysToolGw okTools id
        [{ role := "user", content := "hi" }]).out := by
  have h := caller_messages_unchanged alwaysToolGw okTools id
    [[{ role := "user", content := "hi" }]] 0 (by decide)
  exact ⟨h.1, h.2⟩

end Jarvis
